import Mathlib

/-!
Verification development for the pyFreeFEM-ML shared-memory core.

The repository implements a named shared-memory segment manager with
offset-addressed array transfer and a semaphore-gated handoff protocol,
spread over three C++ translation units:

* `src/pyfreefem_ml/plugins/src/mmap-semaphore.cpp` — a registry of
  System-V segments (`SharedMemoryManager` with `create`, `destroy`,
  byte-level `write`/`read`, and the `shm_write_array`/`shm_read_array`
  double-array wrappers); modelled in namespace `Mmap` below.
* `src/plugins/src/mmap-semaphore.cpp` — a second, variant manager
  (`Create`, `Destroy`, `WriteArray`, `ReadArray`); namespace `Plug`.
* `src/pyfreefem_ml/plugins/src/shm_implementation.cpp` — the POSIX
  shm/semaphore handoff layer (`create_or_open`,
  `write_array_to_shared_memory`, `read_array_from_shared_memory`);
  namespace `Shm`.
* `src/pyfreefem_ml/plugins/src/double_array_ops.cpp` — the
  `ScaleDoubleArray` operator; namespace `Ops`.

Machine integers: the C++ bounds checks are performed in `size_t`
arithmetic, so sums that can wrap are taken modulo `2 ^ 64`.  Double
values are modelled as opaque 64-bit payloads (`Nat`); the code only
copies them bit-for-bit, except in `Ops` where multiplication is kept
abstract through a `Mul` instance.
-/

set_option autoImplicit false
set_option maxRecDepth 100000

/-- `size_t` modulus: the C++ bounds checks add two `size_t` values, which
wraps at `2 ^ 64`. -/
def U64 : Nat := 2 ^ 64

/-- Model of `memcpy` into a segment: overwrite bytes `[off, off + d.length)`
of `c` with `d`.  The C code only reaches the copy after its bounds check
passed; when the (mathematical) range does not fit — which the wrapped
check can let through — the store is out of bounds in C, modelled here as
leaving the segment bytes unchanged. -/
def segWrite (c : List Nat) (off : Nat) (d : List Nat) : List Nat :=
  if off + d.length ≤ c.length then c.take off ++ d ++ c.drop (off + d.length) else c

/-- Model of `memcpy` out of a segment: the bytes `[off, off + len)` of `c`. -/
def segRead (c : List Nat) (off len : Nat) : List Nat :=
  (c.drop off).take len

/-- Association-list lookup keyed by `String`, first match wins
(`std::map::find`). -/
def alistFind {β : Type} : List (String × β) → String → Option β
  | [], _ => none
  | (k, v) :: rest, name => if k = name then some v else alistFind rest name

/-- Replace the value of the first entry with the given key
(`it->second = v` through a found iterator). -/
def alistSet {β : Type} : List (String × β) → String → β → List (String × β)
  | [], _, _ => []
  | (k, v) :: rest, name, w =>
    if k = name then (k, w) :: rest else (k, v) :: alistSet rest name w

/-- Remove the first entry with the given key (`map::erase(it)`). -/
def alistErase {β : Type} : List (String × β) → String → List (String × β)
  | [], _ => []
  | (k, v) :: rest, name =>
    if k = name then rest else (k, v) :: alistErase rest name

namespace Mmap

/-- `SharedMemInfo` of `src/pyfreefem_ml/plugins/src/mmap-semaphore.cpp`:
shm id, size, attachment state; the bytes of the underlying System-V
segment are carried alongside the handle so that the transfer operations
can be given a meaning in one process. -/
structure SharedMemInfo where
  id : Int
  size : Nat
  attached : Bool
  content : List Nat
deriving DecidableEq, Inhabited

/-- `map<string, SharedMemInfo> sharedMemories` — the process-local
registry. -/
abbrev Registry : Type := List (String × SharedMemInfo)

/-- `SharedMemoryManager::create`: strict create.  Fails (returns `-1`,
printing "already exists") when the name is registered; otherwise calls
`shmget(IPC_CREAT)` — whose possible OS failure is the `osFail` oracle —
and registers a fresh zero-filled segment.  The generated key and shm id
are opaque; the id is modelled by the registry length. -/
def create (reg : Registry) (name : String) (size : Nat) (osFail : Bool) :
    Int × Registry :=
  if (alistFind reg name).isSome then (-1, reg)
  else if osFail then (-1, reg)
  else
    (Int.ofNat reg.length,
      reg ++ [(name, ⟨Int.ofNat reg.length, size, false, List.replicate size 0⟩)])

/-- `SharedMemoryManager::destroy`: detach if attached (`shmdt`, oracle
`dtFail`), then `shmctl(IPC_RMID)` (oracle `rmFail`), and only on full
success erase the registry entry.  Note the early `return false` paths
leave the entry in place. -/
def destroy (reg : Registry) (name : String) (dtFail rmFail : Bool) :
    Bool × Registry :=
  match alistFind reg name with
  | none => (false, reg)
  | some info =>
    if info.attached then
      if dtFail then (false, reg)
      else if rmFail then (false, reg)
      else (true, alistErase reg name)
    else if rmFail then (false, reg)
    else (true, alistErase reg name)

/-- `SharedMemoryManager::write`: lookup, bounds check
`offset + size > it->second.size` in `size_t` arithmetic, auto-attach if
needed (`shmat`, oracle `atFail`), then `memcpy` of `len` bytes from
`data` into the segment at byte `off`. -/
def write (reg : Registry) (name : String) (data : List Nat) (len off : Nat)
    (atFail : Bool) : Bool × Registry :=
  match alistFind reg name with
  | none => (false, reg)
  | some info =>
    if (off + len) % U64 > info.size then (false, reg)
    else if info.attached then
      (true, alistSet reg name { info with content := segWrite info.content off (data.take len) })
    else if atFail then (false, reg)
    else
      (true, alistSet reg name
        { info with attached := true, content := segWrite info.content off (data.take len) })

/-- `SharedMemoryManager::read`: lookup, the same `size_t` bounds check,
auto-attach, then `memcpy` of `len` bytes out of the segment at byte
`off`. -/
def read (reg : Registry) (name : String) (len off : Nat) (atFail : Bool) :
    Bool × List Nat × Registry :=
  match alistFind reg name with
  | none => (false, [], reg)
  | some info =>
    if (off + len) % U64 > info.size then (false, [], reg)
    else if info.attached then (true, segRead info.content off len, reg)
    else if atFail then (false, [], reg)
    else (true, segRead info.content off len, alistSet reg name { info with attached := true })

/-- `shm_write_array`: the double-array wrapper.  It converts the element
count to bytes (`size = count * sizeof(double)`) but passes the offset
argument through unscaled to the byte-level `write`.  `data` is the byte
image of the caller's double array. -/
def shm_write_array (reg : Registry) (name : String) (data : List Nat)
    (count off : Nat) (atFail : Bool) : Bool × Registry :=
  write reg name data (count * 8) off atFail

/-- `shm_read_array`: the symmetric wrapper around the byte-level
`read`; again only the count is scaled by 8. -/
def shm_read_array (reg : Registry) (name : String) (count off : Nat)
    (atFail : Bool) : Bool × List Nat × Registry :=
  read reg name (count * 8) off atFail

/-- The element-to-byte conversion as the specification describes it:
both the count and the starting element offset are scaled by the 8-byte
element width before the byte-level operation.  Stated only to be
compared against `shm_write_array` above, which the spec claims it
describes. -/
def shm_write_array_claimed (reg : Registry) (name : String) (data : List Nat)
    (count off : Nat) (atFail : Bool) : Bool × Registry :=
  write reg name data (count * 8) (off * 8) atFail

/-- The content bytes currently registered under a name (empty when the
name is unregistered). -/
def contentOf (reg : Registry) (name : String) : List Nat :=
  match alistFind reg name with
  | none => []
  | some info => info.content

end Mmap

namespace Plug

/-- `SharedMemInfo` of `src/plugins/src/mmap-semaphore.cpp` (the variant
manager); same shape as the other translation unit. -/
structure SharedMemInfo where
  id : Int
  size : Nat
  attached : Bool
  content : List Nat
deriving DecidableEq, Inhabited

/-- `map<string, SharedMemInfo> segments` of the variant manager. -/
abbrev Registry : Type := List (String × SharedMemInfo)

/-- `SharedMemoryManager::Destroy` (variant): detach if attached, then
`shmctl(IPC_RMID)`; on either OS failure it returns `false` before the
`segments.erase(it)` line, leaving the entry registered. -/
def Destroy (reg : Registry) (name : String) (dtFail rmFail : Bool) :
    Bool × Registry :=
  match alistFind reg name with
  | none => (false, reg)
  | some info =>
    if info.attached then
      if dtFail then (false, reg)
      else if rmFail then (false, reg)
      else (true, alistErase reg name)
    else if rmFail then (false, reg)
    else (true, alistErase reg name)

/-- `SharedMemoryManager::WriteArray` (variant): lookup, attach first
(oracle `atFail`), THEN the bounds check
`offset + size * sizeof(double) > it->second.size` in `size_t`
arithmetic, then `memcpy` of `count * 8` bytes at byte offset `off` (the
offset is not scaled). -/
def WriteArray (reg : Registry) (name : String) (data : List Nat)
    (count off : Nat) (atFail : Bool) : Bool × Registry :=
  match alistFind reg name with
  | none => (false, reg)
  | some info =>
    if info.attached then
      if (off + count * 8) % U64 > info.size then (false, reg)
      else
        (true, alistSet reg name
          { info with content := segWrite info.content off (data.take (count * 8)) })
    else if atFail then (false, reg)
    else
      if (off + count * 8) % U64 > info.size then
        (false, alistSet reg name { info with attached := true })
      else
        (true, alistSet reg name
          { info with attached := true,
                      content := segWrite info.content off (data.take (count * 8)) })

/-- `SharedMemoryManager::ReadArray` (variant): symmetric to
`WriteArray`. -/
def ReadArray (reg : Registry) (name : String) (count off : Nat)
    (atFail : Bool) : Bool × List Nat × Registry :=
  match alistFind reg name with
  | none => (false, [], reg)
  | some info =>
    if info.attached then
      if (off + count * 8) % U64 > info.size then (false, [], reg)
      else (true, segRead info.content off (count * 8), reg)
    else if atFail then (false, [], reg)
    else
      if (off + count * 8) % U64 > info.size then
        (false, [], alistSet reg name { info with attached := true })
      else
        (true, segRead info.content off (count * 8),
          alistSet reg name { info with attached := true })

/-- The content bytes currently registered under a name in the variant
manager. -/
def contentOf (reg : Registry) (name : String) : List Nat :=
  match alistFind reg name with
  | none => []
  | some info => info.content

end Plug

namespace Shm

/-- `struct SharedMemoryData` of `shm_implementation.cpp`: the handoff
envelope written at the start of the data segment
(`size_t size; size_t elements; char data_type[32]; char semaphore_name[64]`). -/
structure SharedMemoryData where
  size : Nat
  elements : Nat
  data_type : String
  semaphore_name : String
deriving DecidableEq, Inhabited

/-- `sizeof(SharedMemoryData)`: 8 + 8 + 32 + 64 bytes. -/
def headerSize : Nat := 112

/-- One entry of `SharedMemoryManager::shm_objects`: name, mapped size,
in-use flag, plus the segment's contents (the envelope and the payload of
opaque 64-bit double values), carried here so the transfer steps have a
meaning. -/
structure ShmSlot where
  name : String
  size : Nat
  header : SharedMemoryData
  payload : List Nat
  in_use : Bool
deriving DecidableEq, Inhabited

/-- An unused slot of the static `shm_objects[100]` array. -/
def emptySlot : ShmSlot := ⟨"", 0, ⟨0, 0, "", ""⟩, [], false⟩

/-- The visible state: the 100-entry slot table together with the named
POSIX semaphores (name, current count). -/
structure World where
  slots : List ShmSlot
  sems : List (String × Nat)
deriving DecidableEq, Inhabited

/-- Process start: all 100 slots unused, no semaphores. -/
def initialWorld : World := ⟨List.replicate 100 emptySlot, []⟩

/-- `find_slot_by_name`: index of the first in-use slot with the given
name. -/
def findSlotByName : List ShmSlot → String → Option Nat
  | [], _ => none
  | s :: rest, name =>
    if s.in_use ∧ s.name = name then some 0
    else (findSlotByName rest name).map (· + 1)

/-- `find_free_slot`: index of the first slot not in use. -/
def findFreeSlot : List ShmSlot → Option Nat
  | [] => none
  | s :: rest => if s.in_use then (findFreeSlot rest).map (· + 1) else some 0

/-- `SharedMemoryManager::create_or_open`: reuse the registered slot when
the name is found (without any resize or size check); otherwise take a
free slot and create the OS object (`shm_open(O_CREAT) / ftruncate /
mmap`, whose possible failures are the `osFail` oracle).  A freshly
created object is zero-filled, so its envelope fields are all zero/empty. -/
def create_or_open (w : World) (name : String) (size : Nat) (osFail : Bool) :
    Option Nat × World :=
  match findSlotByName w.slots name with
  | some i => (some i, w)
  | none =>
    match findFreeSlot w.slots with
    | none => (none, w)
    | some j =>
      if osFail then (none, w)
      else
        (some j,
          { w with slots := w.slots.set j ⟨name, size, ⟨0, 0, "", ""⟩, [], true⟩ })

/-- Update slot `i` of a world in place. -/
def updateSlot (w : World) (i : Nat) (f : ShmSlot → ShmSlot) : World :=
  { w with slots := w.slots.set i (f (w.slots.getD i emptySlot)) }

/-- Count of a named semaphore, if it exists. -/
def semLookup (sems : List (String × Nat)) (name : String) : Option Nat :=
  alistFind sems name

/-- `sem_open(name, O_CREAT, 0666, 0)`: create the semaphore at count 0
when absent, otherwise leave it as is. -/
def semEnsure (sems : List (String × Nat)) (name : String) :
    List (String × Nat) :=
  match alistFind sems name with
  | some _ => sems
  | none => (name, 0) :: sems

/-- Apply `f` to the count of the named semaphore. -/
def semUpdate (sems : List (String × Nat)) (name : String) (f : Nat → Nat) :
    List (String × Nat) :=
  match sems with
  | [] => []
  | (n, c) :: rest =>
    if n = name then (n, f c) :: rest else (n, c) :: semUpdate rest name f

/-- `sem_post`. -/
def semPost (w : World) (name : String) : World :=
  { w with sems := semUpdate w.sems name (· + 1) }

/-- A successful `sem_wait`/`sem_timedwait` (count strictly positive
beforehand). -/
def semTake (w : World) (name : String) : World :=
  { w with sems := semUpdate w.sems name (· - 1) }

/-- The externally visible steps of `write_array_to_shared_memory`, in
program order, used to state the signal-last property. -/
inductive PubEvent where
  | acquireSeg
  | writeEnv
  | writePayload
  | raiseSignal
deriving DecidableEq, Inhabited

/-- Result of a publish: the returned boolean, the final state, and the
trace of completed steps. -/
structure PubResult where
  ok : Bool
  world : World
  trace : List PubEvent
deriving DecidableEq

/-- `write_array_to_shared_memory` (publish): compute
`total = sizeof(SharedMemoryData) + 8 * elements`, `create_or_open` the
segment `"/" ++ name` at that size, write the envelope, open/create the
semaphore `"/sem_" ++ name` (oracle `semFail`), copy the payload, and
finally `sem_post`.  The envelope write lands before the semaphore open,
exactly as in the C. -/
def write_array_to_shared_memory (w : World) (name : String) (arr : List Nat)
    (osFail semFail : Bool) : PubResult :=
  let elements := arr.length
  let data_size := elements * 8
  let total_size := headerSize + data_size
  let shm_name := "/" ++ name
  match create_or_open w shm_name total_size osFail with
  | (none, w1) => ⟨false, w1, []⟩
  | (some slot, w1) =>
    let sem_name := "/sem_" ++ name
    let w2 := updateSlot w1 slot fun s =>
      { s with header := ⟨data_size, elements, "double_array", sem_name⟩ }
    if semFail then ⟨false, w2, [.acquireSeg, .writeEnv]⟩
    else
      let w3 := { w2 with sems := semEnsure w2.sems sem_name }
      let w4 := updateSlot w3 slot fun s => { s with payload := arr }
      let w5 := semPost w4 sem_name
      ⟨true, w5, [.acquireSeg, .writeEnv, .writePayload, .raiseSignal]⟩

/-- Result of a consume: the returned boolean, the values read, and the
final state. -/
structure ConsResult where
  ok : Bool
  values : List Nat
  world : World
deriving DecidableEq

/-- `read_array_from_shared_memory` (consume): `create_or_open` the
segment `"/" ++ name` at header size (note: `O_CREAT`, so a missing
segment is created), read the envelope, `sem_open` the semaphore it
names without `O_CREAT` (fails when absent, oracle `semFail` for other
failures), `sem_timedwait` (times out when the count is zero), check
the type tag (re-posting on mismatch), copy `elements` values out, and
`sem_post` before returning. -/
def read_array_from_shared_memory (w : World) (name : String)
    (osFail semFail : Bool) : ConsResult :=
  let shm_name := "/" ++ name
  match create_or_open w shm_name headerSize osFail with
  | (none, w1) => ⟨false, [], w1⟩
  | (some slot, w1) =>
    let s := w1.slots.getD slot emptySlot
    let hdr := s.header
    match semLookup w1.sems hdr.semaphore_name with
    | none => ⟨false, [], w1⟩
    | some cnt =>
      if semFail then ⟨false, [], w1⟩
      else if cnt = 0 then ⟨false, [], w1⟩
      else
        let w2 := semTake w1 hdr.semaphore_name
        if hdr.data_type ≠ "double_array" then
          ⟨false, [], semPost w2 hdr.semaphore_name⟩
        else
          ⟨true, s.payload.take hdr.elements, semPost w2 hdr.semaphore_name⟩

/-- The size of the registered data segment for a name (0 when absent). -/
def slotSizeOf (w : World) (name : String) : Nat :=
  match findSlotByName w.slots name with
  | none => 0
  | some i => (w.slots.getD i emptySlot).size

/-- A channel in the `Ready` state with exactly one pending publish of
`arr`: the data segment is registered with the envelope exactly as
`write_array_to_shared_memory` leaves it, and the semaphore count is 1. -/
def publishedOne (w : World) (name : String) (arr : List Nat) : Bool :=
  match findSlotByName w.slots ("/" ++ name) with
  | none => false
  | some i =>
    let s := w.slots.getD i emptySlot
    s.header == ⟨arr.length * 8, arr.length, "double_array", "/sem_" ++ name⟩
      && s.payload == arr
      && semLookup w.sems ("/sem_" ++ name) == some 1

end Shm

namespace Ops

/-- One iteration of the `ScaleDoubleArray` loop
(`(*result)[i] = (*array)[i] * scale`): the state is the pair of the
input array and the result array; the step reads index `i` of the input
and stores the scaled value at index `i` of the result, touching nothing
else. -/
def scaleStep {α : Type} [Mul α] [Inhabited α] (scale : α)
    (p : List α × List α) (i : Nat) : List α × List α :=
  (p.1, p.2.set i (p.1.getD i default * scale))

/-- `ScaleDoubleArray` of `double_array_ops.cpp`: allocate a fresh result
array of length `array->N()`, then run the loop for `i = 0 .. N-1`.
Returns the final (input, result) pair. -/
def ScaleDoubleArray {α : Type} [Mul α] [Inhabited α] (arr : List α) (scale : α) :
    List α × List α :=
  (List.range arr.length).foldl (scaleStep scale) (arr, List.replicate arr.length default)

end Ops

namespace Ex

/-- The world after one successful `publish("g", [1, 2, 3])` from process
start. -/
def pubWorld : Shm.World :=
  (Shm.write_array_to_shared_memory Shm.initialWorld "g" [1, 2, 3] false false).world

/-- A `consume("g")` immediately after that publish. -/
def cons1 : Shm.ConsResult :=
  Shm.read_array_from_shared_memory pubWorld "g" false false

/-- A second publish on the same name needing a larger segment
(10 elements: 112 + 80 = 192 bytes, against the registered 136). -/
def pub2 : Shm.PubResult :=
  Shm.write_array_to_shared_memory pubWorld "g" [1, 2, 3, 4, 5, 6, 7, 8, 9, 10] false false

/-- A `consume("g")` from process start, with no segment in existence. -/
def freshCons : Shm.ConsResult :=
  Shm.read_array_from_shared_memory Shm.initialWorld "g" false false

/-- The handle of a 16-byte attached segment. -/
def infoWrap : Mmap.SharedMemInfo := ⟨0, 16, true, List.replicate 16 0⟩

/-- A 16-byte attached segment, for the bounds-check wraparound
counterexample. -/
def regWrap : Mmap.Registry := [("g", infoWrap)]

/-- The handle of a 10-byte attached segment. -/
def infoConv : Mmap.SharedMemInfo := ⟨0, 10, true, List.replicate 10 0⟩

/-- A 10-byte attached segment, for the offset-conversion counterexample. -/
def regConv : Mmap.Registry := [("g", infoConv)]

/-- The byte image of one double. -/
def oneDouble : List Nat := [1, 2, 3, 4, 5, 6, 7, 8]

/-- A registered, detached 32-byte segment, for the destroy-failure
counterexample. -/
def regDestroy : Mmap.Registry := [("g", ⟨0, 32, false, List.replicate 32 0⟩)]

/-- Its handle. -/
def infoDestroy : Mmap.SharedMemInfo := ⟨0, 32, false, List.replicate 32 0⟩

/-- A registered, detached 8-byte segment, for the round-trip witness. -/
def regRound : Mmap.Registry := [("g", ⟨0, 8, false, List.replicate 8 0⟩)]

/-- Its handle. -/
def infoRound : Mmap.SharedMemInfo := ⟨0, 8, false, List.replicate 8 0⟩

/-- A variant-manager registry with a detached 16-byte segment, for the
variant conjuncts of the bounds and destroy claims. -/
def plugReg : Plug.Registry := [("g", ⟨0, 16, false, List.replicate 16 0⟩)]

/-- Its handle. -/
def plugInfo : Plug.SharedMemInfo := ⟨0, 16, false, List.replicate 16 0⟩

end Ex


/-! ## Helper lemmas -/

theorem alistFind_alistSet_self {β : Type} (reg : List (String × β)) (name : String)
    (v : β) (h : (alistFind reg name).isSome) :
    alistFind (alistSet reg name v) name = some v := by
  induction reg with
  | nil => simp [alistFind] at h
  | cons p rest ih =>
    obtain ⟨k, w⟩ := p
    by_cases hk : k = name
    · simp [alistFind, alistSet, hk]
    · simp only [alistFind, alistSet, if_neg hk] at h ⊢
      exact ih h

theorem length_segWrite (c d : List Nat) (off : Nat) :
    (segWrite c off d).length = c.length := by
  unfold segWrite
  by_cases h : off + d.length ≤ c.length
  · have hoff : off ≤ c.length := le_trans (Nat.le_add_right _ _) h
    simp [if_pos h, List.length_take, List.length_drop, Nat.min_eq_left hoff]
    omega
  · simp [if_neg h]

theorem segRead_segWrite (c d : List Nat) (off : Nat) (h : off + d.length ≤ c.length) :
    segRead (segWrite c off d) off d.length = d := by
  unfold segWrite segRead
  rw [if_pos h, List.append_assoc]
  have hoff : off ≤ c.length := le_trans (Nat.le_add_right _ _) h
  have hlen : (c.take off).length = off := by
    rw [List.length_take]
    exact Nat.min_eq_left hoff
  calc ((c.take off ++ (d ++ c.drop (off + d.length))).drop off).take d.length
      = ((c.take off ++ (d ++ c.drop (off + d.length))).drop
          (c.take off).length).take d.length := by rw [hlen]
    _ = (d ++ c.drop (off + d.length)).take d.length := by rw [List.drop_left]
    _ = d := List.take_left d _

theorem getD_set_self {α : Type} (l : List α) (j : Nat) (a d : α) (h : j < l.length) :
    (l.set j a).getD j d = a := by
  have h2 : j < (l.set j a).length := by
    rw [List.length_set]
    exact h
  rw [List.getD_eq_getElem _ _ h2]
  exact List.getElem_set_self h2

theorem Shm.findFreeSlot_lt_length (l : List Shm.ShmSlot) (j : Nat)
    (h : Shm.findFreeSlot l = some j) : j < l.length := by
  induction l generalizing j with
  | nil => simp [Shm.findFreeSlot] at h
  | cons s rest ih =>
    by_cases hu : s.in_use
    · simp only [Shm.findFreeSlot, if_pos hu, Option.map_eq_some'] at h
      obtain ⟨j0, hj0, rfl⟩ := h
      have := ih j0 hj0
      simp only [List.length_cons]
      omega
    · simp only [Shm.findFreeSlot, if_neg hu, Option.some.injEq] at h
      subst h
      simp

theorem Shm.findSlotByName_set_of_not_found (n : String) (s : Shm.ShmSlot)
    (hu : s.in_use = true) (hn : s.name = n) :
    ∀ (l : List Shm.ShmSlot) (j : Nat), Shm.findSlotByName l n = none →
      j < l.length → Shm.findSlotByName (l.set j s) n = some j := by
  intro l
  induction l with
  | nil =>
    intro j _ hj
    simp at hj
  | cons a rest ih =>
    intro j hnone hj
    by_cases ha : a.in_use ∧ a.name = n
    · simp [Shm.findSlotByName, if_pos ha] at hnone
    · have hrest : Shm.findSlotByName rest n = none := by
        simp only [Shm.findSlotByName, if_neg ha, Option.map_eq_none'] at hnone
        exact hnone
      cases j with
      | zero =>
        rw [List.set_cons_zero]
        simp [Shm.findSlotByName, hu, hn]
      | succ j0 =>
        have hj0 : j0 < rest.length := by
          simp only [List.length_cons] at hj
          omega
        rw [List.set_cons_succ]
        simp only [Shm.findSlotByName, if_neg ha, ih j0 hrest hj0, Option.map_some']

theorem alistFind_semUpdate (sems : List (String × Nat)) (name : String)
    (f : Nat → Nat) :
    alistFind (Shm.semUpdate sems name f) name = (alistFind sems name).map f := by
  induction sems with
  | nil => simp [Shm.semUpdate, alistFind]
  | cons p rest ih =>
    obtain ⟨k, c⟩ := p
    by_cases hk : k = name
    · simp [Shm.semUpdate, alistFind, hk]
    · simp only [Shm.semUpdate, alistFind, if_neg hk, ih]

/-! ## Claim theorems -/

/-- C1, counterexample: after `publish("g", [1,2,3])` there is exactly one
pending publish (`publishedOne`), and a successful consume; but the
consume leaves the semaphore raised at 1 (the code re-posts it before
returning), and an immediately following consume on the same channel
succeeds instead of timing out.  This refutes the claim that a successful
consume lowers the signal back to zero so that a second consume fails
with Timeout. -/
theorem consume_leaves_signal_raised_cex :
    Shm.publishedOne Ex.pubWorld "g" [1, 2, 3] = true
    ∧ Ex.cons1.ok = true
    ∧ Shm.semLookup Ex.cons1.world.sems "/sem_g" = some 1
    ∧ (Shm.read_array_from_shared_memory Ex.cons1.world "g" false false).ok = true := by
  decide

/-- C3, evaluation at the failing input: after `publish("g", [1,2,3])`
the data segment is registered at 136 bytes; a second publish of 10
elements needs 112 + 80 = 192 bytes, yet `create_or_open` reuses the
136-byte slot without any size check and the publish reports success —
there is no SizeMismatch failure, and the payload copy runs past the
mapped size. -/
theorem publish_reuses_undersized_segment :
    Shm.slotSizeOf Ex.pubWorld "/g" = 136
    ∧ Shm.headerSize + 10 * 8 = 192
    ∧ Ex.pub2.ok = true
    ∧ Shm.slotSizeOf Ex.pub2.world "/g" = 136 := by
  decide

/-- C4, counterexample: a consume on name "g" from process start — no
data segment exists — does fail, but as a side effect it creates and
registers a fresh header-sized segment under "/g".  This refutes the
claim that such a consume fails with NotFound without creating a
segment. -/
theorem consume_missing_creates_segment_cex :
    Ex.freshCons.ok = false
    ∧ Shm.findSlotByName Ex.freshCons.world.slots "/g" = some 0
    ∧ Shm.slotSizeOf Ex.freshCons.world "/g" = Shm.headerSize := by
  decide

/-- C5, counterexample: on a registered 16-byte segment, a write request
of 16 bytes at offset `2^64 - 8` exceeds the segment size
mathematically, but the `size_t` sum in the bounds check wraps to 8, the
check passes, and the operation returns success instead of an
out-of-bounds error. -/
theorem write_bounds_check_wraps_cex :
    (Mmap.write Ex.regWrap "g" (List.replicate 16 7) 16 (U64 - 8) false).1 = true
    ∧ U64 - 8 + 16 > 16 := by
  decide

/-- C6, counterexample: on a registered 10-byte segment, writing 1
element at element offset 1 should, per the claimed conversion (byte
offset = offset * 8), fail the bounds check (8 + 8 > 10); the code
instead passes the offset through unscaled (1 + 8 ≤ 10) and succeeds.
The engine therefore does not convert the offset to byte units. -/
theorem array_offset_not_scaled_cex :
    (Mmap.shm_write_array Ex.regConv "g" Ex.oneDouble 1 1 false).1 = true
    ∧ (Mmap.shm_write_array_claimed Ex.regConv "g" Ex.oneDouble 1 1 false).1 = false := by
  decide

/-- C7, counterexample: with "g" registered and the OS-level release
call failing, destroy reports failure but the registry entry is still
there — a subsequent lookup finds the handle, refuting the claim that
the entry is removed from the registry. -/
theorem destroy_failure_keeps_entry_cex :
    (Mmap.destroy Ex.regDestroy "g" false true).1 = false
    ∧ alistFind (Mmap.destroy Ex.regDestroy "g" false true).2 "g" = some Ex.infoDestroy := by
  decide

/-- C7 (amended): when the OS-level release call errors, destroy (in both
manager variants) reports failure and leaves the registry entry in
place, so a subsequent lookup of the name still finds the handle. -/
theorem destroy_failure_keeps_entry (reg : Mmap.Registry) (name : String)
    (info : Mmap.SharedMemInfo) (dtFail : Bool)
    (h : alistFind reg name = some info)
    (preg : Plug.Registry) (pname : String) (pinfo : Plug.SharedMemInfo)
    (pdtFail : Bool) (hp : alistFind preg pname = some pinfo) :
    (Mmap.destroy reg name dtFail true = (false, reg)
      ∧ alistFind (Mmap.destroy reg name dtFail true).2 name = some info)
    ∧ (Plug.Destroy preg pname pdtFail true = (false, preg)
      ∧ alistFind (Plug.Destroy preg pname pdtFail true).2 pname = some pinfo) := by
  have h1 : Mmap.destroy reg name dtFail true = (false, reg) := by
    unfold Mmap.destroy
    rw [h]
    cases info.attached <;> cases dtFail <;> simp
  have h2 : Plug.Destroy preg pname pdtFail true = (false, preg) := by
    unfold Plug.Destroy
    rw [hp]
    cases pinfo.attached <;> cases pdtFail <;> simp
  exact ⟨⟨h1, by rw [h1]; exact h⟩, ⟨h2, by rw [h2]; exact hp⟩⟩

/-- C7, witness: the amended destroy-failure behaviour at a concrete
registry in each variant. -/
theorem destroy_failure_keeps_entry_witness :
    (Mmap.destroy Ex.regDestroy "g" false true = (false, Ex.regDestroy)
      ∧ alistFind (Mmap.destroy Ex.regDestroy "g" false true).2 "g" = some Ex.infoDestroy)
    ∧ (Plug.Destroy Ex.plugReg "g" false true = (false, Ex.plugReg)
      ∧ alistFind (Plug.Destroy Ex.plugReg "g" false true).2 "g" = some Ex.plugInfo) :=
  destroy_failure_keeps_entry Ex.regDestroy "g" Ex.infoDestroy false (by decide)
    Ex.plugReg "g" Ex.plugInfo false (by decide)

/-- C9: a strict create (`SharedMemoryManager::create`) of a name already
present in the registry fails (returns -1, the AlreadyExists failure) and
leaves the registry exactly as it was — the existing handle is neither
replaced nor duplicated. -/
theorem create_strict_already_exists (reg : Mmap.Registry) (name : String)
    (size : Nat) (osFail : Bool) (info : Mmap.SharedMemInfo)
    (h : alistFind reg name = some info) :
    Mmap.create reg name size osFail = (-1, reg) := by
  unfold Mmap.create
  rw [h]
  simp

/-- C9, witness: strict create on an already-registered name at a
concrete registry. -/
theorem create_strict_already_exists_witness :
    Mmap.create Ex.regDestroy "g" 64 false = (-1, Ex.regDestroy) :=
  create_strict_already_exists Ex.regDestroy "g" 64 false Ex.infoDestroy (by decide)

theorem Shm.publish_shape (w : Shm.World) (name : String) (arr : List Nat)
    (oF sF : Bool) :
    ((Shm.write_array_to_shared_memory w name arr oF sF).ok = false
      ∧ (Shm.write_array_to_shared_memory w name arr oF sF).trace = [])
    ∨ ((Shm.write_array_to_shared_memory w name arr oF sF).ok = false
      ∧ (Shm.write_array_to_shared_memory w name arr oF sF).trace
          = [.acquireSeg, .writeEnv])
    ∨ ((Shm.write_array_to_shared_memory w name arr oF sF).ok = true
      ∧ (Shm.write_array_to_shared_memory w name arr oF sF).trace
          = [.acquireSeg, .writeEnv, .writePayload, .raiseSignal]) := by
  simp only [Shm.write_array_to_shared_memory]
  rcases h : Shm.create_or_open w ("/" ++ name) (Shm.headerSize + arr.length * 8) oF
    with ⟨res, w1⟩
  cases res with
  | none => simp
  | some slot => cases sF <;> simp

/-- C2: the synchronization signal is raised only after the envelope and
the full payload have been written — in every trace of
`write_array_to_shared_memory`, any `raiseSignal` step is strictly
preceded by a `writeEnv` and a `writePayload` step — and whenever
publish returns an error (segment creation failure, semaphore open
failure), no `raiseSignal` step occurs at all. -/
theorem publish_raises_signal_last (w : Shm.World) (name : String) (arr : List Nat)
    (oF sF : Bool) :
    (∀ i, (Shm.write_array_to_shared_memory w name arr oF sF).trace.getD i
        .acquireSeg = Shm.PubEvent.raiseSignal →
      (∃ j, j < i ∧ (Shm.write_array_to_shared_memory w name arr oF sF).trace.getD j
          .acquireSeg = Shm.PubEvent.writeEnv)
      ∧ (∃ k, k < i ∧ (Shm.write_array_to_shared_memory w name arr oF sF).trace.getD k
          .acquireSeg = Shm.PubEvent.writePayload))
    ∧ ((Shm.write_array_to_shared_memory w name arr oF sF).ok = false →
      Shm.PubEvent.raiseSignal ∉ (Shm.write_array_to_shared_memory w name arr oF sF).trace) := by
  rcases Shm.publish_shape w name arr oF sF with ⟨hok, htr⟩ | ⟨hok, htr⟩ | ⟨hok, htr⟩
  · constructor
    · intro i hi
      rw [htr, List.getD_nil] at hi
      exact absurd hi (by decide)
    · intro _
      rw [htr]
      simp
  · constructor
    · intro i hi
      rw [htr] at hi
      rcases i with _ | _ | n
      · rw [List.getD_cons_zero] at hi
        exact absurd hi (by decide)
      · rw [List.getD_cons_succ, List.getD_cons_zero] at hi
        exact absurd hi (by decide)
      · rw [List.getD_cons_succ, List.getD_cons_succ, List.getD_nil] at hi
        exact absurd hi (by decide)
    · intro _
      rw [htr]
      decide
  · constructor
    · intro i hi
      rw [htr] at hi
      rcases i with _ | _ | _ | _ | n
      · rw [List.getD_cons_zero] at hi
        exact absurd hi (by decide)
      · rw [List.getD_cons_succ, List.getD_cons_zero] at hi
        exact absurd hi (by decide)
      · rw [List.getD_cons_succ, List.getD_cons_succ, List.getD_cons_zero] at hi
        exact absurd hi (by decide)
      · exact ⟨⟨1, by omega, by rw [htr]; decide⟩, ⟨2, by omega, by rw [htr]; decide⟩⟩
      · rw [List.getD_cons_succ, List.getD_cons_succ, List.getD_cons_succ,
          List.getD_cons_succ, List.getD_nil] at hi
        exact absurd hi (by decide)
    · intro hfalse
      rw [hok] at hfalse
      exact absurd hfalse (by decide)

/-- C2, witness: in the successful publish from process start, the
signal-raise at trace position 3 is preceded by the envelope write and
the payload write. -/
theorem publish_raises_signal_last_witness :
    (∃ j, j < 3 ∧ (Shm.write_array_to_shared_memory Shm.initialWorld "g" [1] false
        false).trace.getD j .acquireSeg = Shm.PubEvent.writeEnv)
    ∧ (∃ k, k < 3 ∧ (Shm.write_array_to_shared_memory Shm.initialWorld "g" [1] false
        false).trace.getD k .acquireSeg = Shm.PubEvent.writePayload) :=
  (publish_raises_signal_last Shm.initialWorld "g" [1] false false).1 3 (by decide)

/-- C4 (amended): a consume on a name with no registered data segment
(and a free slot available) returns an error — the freshly created
envelope names no semaphore, so the semaphore open fails — but creates
and registers a header-sized segment under the name as a side effect. -/
theorem consume_missing_creates_segment (w : Shm.World) (name : String) (j : Nat)
    (h1 : Shm.findSlotByName w.slots ("/" ++ name) = none)
    (h2 : Shm.findFreeSlot w.slots = some j)
    (h3 : Shm.semLookup w.sems "" = none) :
    (Shm.read_array_from_shared_memory w name false false).ok = false
    ∧ Shm.findSlotByName
        (Shm.read_array_from_shared_memory w name false false).world.slots
        ("/" ++ name) = some j
    ∧ Shm.slotSizeOf (Shm.read_array_from_shared_memory w name false false).world
        ("/" ++ name) = Shm.headerSize := by
  have hj : j < w.slots.length := Shm.findFreeSlot_lt_length _ _ h2
  have hco : Shm.create_or_open w ("/" ++ name) Shm.headerSize false = (some j, { w with slots := w.slots.set j ⟨"/" ++ name, Shm.headerSize, ⟨0, 0, "", ""⟩, [], true⟩ }) := by
    unfold Shm.create_or_open
    rw [h1, h2]
    simp
  have hslot : (w.slots.set j ⟨"/" ++ name, Shm.headerSize, ⟨0, 0, "", ""⟩, [], true⟩).getD j Shm.emptySlot = ⟨"/" ++ name, Shm.headerSize, ⟨0, 0, "", ""⟩, [], true⟩ :=
    getD_set_self _ _ _ _ hj
  have hfind : Shm.findSlotByName (w.slots.set j ⟨"/" ++ name, Shm.headerSize, ⟨0, 0, "", ""⟩, [], true⟩) ("/" ++ name) = some j :=
    Shm.findSlotByName_set_of_not_found ("/" ++ name) _ rfl rfl _ _ h1 hj
  simp only [Shm.read_array_from_shared_memory, hco, hslot]
  rw [h3]
  exact ⟨rfl, hfind, by simp only [Shm.slotSizeOf, hfind, hslot]⟩

/-- C4, witness: the amended behaviour at process start with name "g". -/
theorem consume_missing_creates_segment_witness :
    (Shm.read_array_from_shared_memory Shm.initialWorld "g" false false).ok = false
    ∧ Shm.findSlotByName
        (Shm.read_array_from_shared_memory Shm.initialWorld "g" false false).world.slots
        ("/" ++ "g") = some 0
    ∧ Shm.slotSizeOf
        (Shm.read_array_from_shared_memory Shm.initialWorld "g" false false).world
        ("/" ++ "g") = Shm.headerSize :=
  consume_missing_creates_segment Shm.initialWorld "g" 0 (by decide) (by decide)
    (by decide)

theorem Shm.consume_of_publishedOne (w : Shm.World) (name : String) (arr : List Nat)
    (h : Shm.publishedOne w name arr = true) :
    (Shm.read_array_from_shared_memory w name false false).ok = true
    ∧ (Shm.read_array_from_shared_memory w name false false).values = arr
    ∧ Shm.semLookup (Shm.read_array_from_shared_memory w name false false).world.sems ("/sem_" ++ name) = some 1
    ∧ Shm.publishedOne (Shm.read_array_from_shared_memory w name false false).world name arr = true := by
  unfold Shm.publishedOne at h
  cases hfind : Shm.findSlotByName w.slots ("/" ++ name) with
  | none =>
    rw [hfind] at h
    simp at h
  | some i =>
    rw [hfind] at h
    simp only [Bool.and_eq_true, beq_iff_eq] at h
    obtain ⟨⟨hhdr, hpay⟩, hsem⟩ := h
    have hco : Shm.create_or_open w ("/" ++ name) Shm.headerSize false = (some i, w) := by
      unfold Shm.create_or_open
      rw [hfind]
    have hup : Shm.semLookup (Shm.semUpdate (Shm.semUpdate w.sems ("/sem_" ++ name) (· - 1)) ("/sem_" ++ name) (· + 1)) ("/sem_" ++ name) = some 1 := by
      unfold Shm.semLookup
      rw [alistFind_semUpdate, alistFind_semUpdate]
      unfold Shm.semLookup at hsem
      rw [hsem]
      rfl
    simp only [Shm.read_array_from_shared_memory, hco, hhdr, hpay]
    simp only [Shm.semTake, Shm.semPost]
    rw [hsem]
    simp only [Nat.one_ne_zero, if_false, Bool.false_eq_true, ite_false, ne_eq,
      not_true_eq_false, List.take_length]
    refine ⟨?_, ?_, ?_, ?_⟩
    · simp
    · simp
    · simpa using hup
    · simp only [Shm.publishedOne, hfind, hhdr, hpay]
      simp [hup]

/-- C1 (amended): for every successful consume on a channel with exactly
one pending publish, the operation re-raises the signal (a final
`sem_post`) before returning, leaving the count at one instead of zero;
consequently an immediately following consume on the same channel (with
no intervening publish) succeeds and returns the same array, rather than
failing with Timeout. -/
theorem consume_reposts_signal (w : Shm.World) (name : String) (arr : List Nat)
    (h : Shm.publishedOne w name arr = true) :
    (Shm.read_array_from_shared_memory w name false false).ok = true
    ∧ (Shm.read_array_from_shared_memory w name false false).values = arr
    ∧ Shm.semLookup (Shm.read_array_from_shared_memory w name false false).world.sems ("/sem_" ++ name) = some 1
    ∧ (Shm.read_array_from_shared_memory (Shm.read_array_from_shared_memory w name false false).world name false false).ok = true
    ∧ (Shm.read_array_from_shared_memory (Shm.read_array_from_shared_memory w name false false).world name false false).values = arr := by
  obtain ⟨a1, a2, a3, a4⟩ := Shm.consume_of_publishedOne w name arr h
  obtain ⟨b1, b2, _, _⟩ := Shm.consume_of_publishedOne _ name arr a4
  exact ⟨a1, a2, a3, b1, b2⟩

/-- C1, witness: the amended behaviour on the concrete world left by
`publish("g", [1,2,3])`. -/
theorem consume_reposts_signal_witness :
    (Shm.read_array_from_shared_memory Ex.pubWorld "g" false false).ok = true
    ∧ (Shm.read_array_from_shared_memory Ex.pubWorld "g" false false).values = [1, 2, 3]
    ∧ Shm.semLookup (Shm.read_array_from_shared_memory Ex.pubWorld "g" false false).world.sems ("/sem_" ++ "g") = some 1
    ∧ (Shm.read_array_from_shared_memory (Shm.read_array_from_shared_memory Ex.pubWorld "g" false false).world "g" false false).ok = true
    ∧ (Shm.read_array_from_shared_memory (Shm.read_array_from_shared_memory Ex.pubWorld "g" false false).world "g" false false).values = [1, 2, 3] :=
  consume_reposts_signal Ex.pubWorld "g" [1, 2, 3] (by decide)

/-- C5 (amended): for every registered segment and every write or read
request whose offset plus requested byte length exceeds the segment's
size without wrapping in `size_t` (the sum is below `2 ^ 64`), the
operation fails and the registry — in particular the segment's contents
— is left completely unchanged; this holds for the byte-level
`write`/`read` and for the variant manager's `WriteArray`/`ReadArray`
(whose request length is `count * 8` bytes), where only the attach flag
may change because the variant attaches before its bounds check. -/
theorem oob_write_read_rejected_unchanged
    (reg : Mmap.Registry) (name : String) (data : List Nat) (len off : Nat)
    (atF : Bool) (info : Mmap.SharedMemInfo)
    (h : alistFind reg name = some info)
    (hoob : off + len > info.size) (hnw : off + len < U64)
    (preg : Plug.Registry) (pname : String) (pdata : List Nat)
    (count poff : Nat) (patF : Bool) (pinfo : Plug.SharedMemInfo)
    (hp : alistFind preg pname = some pinfo)
    (hpoob : poff + count * 8 > pinfo.size) (hpnw : poff + count * 8 < U64) :
    Mmap.write reg name data len off atF = (false, reg)
    ∧ Mmap.read reg name len off atF = (false, [], reg)
    ∧ (Plug.WriteArray preg pname pdata count poff patF).1 = false
    ∧ Plug.contentOf (Plug.WriteArray preg pname pdata count poff patF).2 pname = pinfo.content
    ∧ (Plug.ReadArray preg pname count poff patF).1 = false
    ∧ Plug.contentOf (Plug.ReadArray preg pname count poff patF).2.2 pname = pinfo.content := by
  have hmod : (off + len) % U64 = off + len := Nat.mod_eq_of_lt hnw
  have hpmod : (poff + count * 8) % U64 = poff + count * 8 := Nat.mod_eq_of_lt hpnw
  have hset : alistFind (alistSet preg pname { pinfo with attached := true }) pname
      = some { pinfo with attached := true } :=
    alistFind_alistSet_self _ _ _ (by rw [hp]; rfl)
  refine ⟨?_, ?_, ?_, ?_, ?_, ?_⟩
  · simp [Mmap.write, h, hmod, hoob]
  · simp [Mmap.read, h, hmod, hoob]
  · cases hA : pinfo.attached <;> cases patF <;>
      simp [Plug.WriteArray, hp, hpmod, hpoob, hA]
  · cases hA : pinfo.attached <;> cases patF <;>
      simp [Plug.WriteArray, Plug.contentOf, hp, hpmod, hpoob, hA, hset]
  · cases hA : pinfo.attached <;> cases patF <;>
      simp [Plug.ReadArray, hp, hpmod, hpoob, hA]
  · cases hA : pinfo.attached <;> cases patF <;>
      simp [Plug.ReadArray, Plug.contentOf, hp, hpmod, hpoob, hA, hset]

/-- C5, witness: the amended out-of-bounds behaviour at concrete
registries — a 20-byte request ending past a 16-byte segment in the
byte-level manager, and a 3-double request past the variant's 16-byte
segment. -/
theorem oob_write_read_rejected_unchanged_witness :
    Mmap.write Ex.regWrap "g" (List.replicate 10 7) 10 10 false = (false, Ex.regWrap)
    ∧ Mmap.read Ex.regWrap "g" 10 10 false = (false, [], Ex.regWrap)
    ∧ (Plug.WriteArray Ex.plugReg "g" (List.replicate 24 7) 3 0 false).1 = false
    ∧ Plug.contentOf (Plug.WriteArray Ex.plugReg "g" (List.replicate 24 7) 3 0 false).2 "g" = Ex.plugInfo.content
    ∧ (Plug.ReadArray Ex.plugReg "g" 3 0 false).1 = false
    ∧ Plug.contentOf (Plug.ReadArray Ex.plugReg "g" 3 0 false).2.2 "g" = Ex.plugInfo.content :=
  oob_write_read_rejected_unchanged Ex.regWrap "g" (List.replicate 10 7) 10 10
    false Ex.infoWrap (by decide) (by decide) (by decide)
    Ex.plugReg "g" (List.replicate 24 7) 3 0 false Ex.plugInfo (by decide)
    (by decide) (by decide)

/-- C6 (amended): for every numeric-array write or read request on a
registered, attached segment, the engine converts the element count to
byte units (`len = count * 8`) but uses the given offset directly as a
byte offset: the bounds check compares `off + count * 8` against the
segment size, a passing write copies `count * 8` bytes at byte offset
`off`, a passing read returns the `count * 8` bytes at byte offset
`off`, and a failing (non-wrapping) check leaves everything unchanged. -/
theorem array_ops_scale_count_only
    (reg : Mmap.Registry) (name : String) (data : List Nat) (count off : Nat)
    (atF : Bool) (info : Mmap.SharedMemInfo)
    (h : alistFind reg name = some info) (hatt : info.attached = true)
    (hsz : info.size < U64) :
    (off + count * 8 ≤ info.size →
      Mmap.shm_write_array reg name data count off atF
        = (true, alistSet reg name { info with content := segWrite info.content off (data.take (count * 8)) })
      ∧ Mmap.shm_read_array reg name count off atF
        = (true, segRead info.content off (count * 8), reg))
    ∧ (off + count * 8 > info.size → off + count * 8 < U64 →
      Mmap.shm_write_array reg name data count off atF = (false, reg)
      ∧ Mmap.shm_read_array reg name count off atF = (false, [], reg)) := by
  constructor
  · intro hle
    have hmod : (off + count * 8) % U64 = off + count * 8 :=
      Nat.mod_eq_of_lt (lt_of_le_of_lt hle hsz)
    have hng : ¬ off + count * 8 > info.size := not_lt.mpr hle
    constructor
    · simp [Mmap.shm_write_array, Mmap.write, h, hmod, hng, hatt]
    · simp [Mmap.shm_read_array, Mmap.read, h, hmod, hng, hatt]
  · intro hoob hnw
    have hmod : (off + count * 8) % U64 = off + count * 8 := Nat.mod_eq_of_lt hnw
    constructor
    · simp [Mmap.shm_write_array, Mmap.write, h, hmod, hoob]
    · simp [Mmap.shm_read_array, Mmap.read, h, hmod, hoob]

/-- C6, witness: the amended conversion behaviour for a 1-element
request at offset 0 on the concrete 10-byte segment. -/
theorem array_ops_scale_count_only_witness :
    Mmap.shm_write_array Ex.regConv "g" Ex.oneDouble 1 0 false
      = (true, alistSet Ex.regConv "g" { Ex.infoConv with content := segWrite Ex.infoConv.content 0 (Ex.oneDouble.take (1 * 8)) })
    ∧ Mmap.shm_read_array Ex.regConv "g" 1 0 false
      = (true, segRead Ex.infoConv.content 0 (1 * 8), Ex.regConv) :=
  (array_ops_scale_count_only Ex.regConv "g" Ex.oneDouble 1 0 false Ex.infoConv
    (by decide) (by decide) (by decide)).1 (by decide)

/-- C8: for every registered segment whose content invariant holds, a
successful in-bounds write of buffer `data` at offset `off` followed by
a read of `data.length` bytes at the same offset returns exactly
`data`, with the registry unchanged by the read. -/
theorem write_read_roundtrip
    (reg : Mmap.Registry) (name : String) (data : List Nat) (len off : Nat)
    (atF : Bool) (info : Mmap.SharedMemInfo)
    (h : alistFind reg name = some info)
    (hlen : info.content.length = info.size) (hsz : info.size < U64)
    (hdata : data.length = len) (hfit : off + len ≤ info.size) :
    (Mmap.write reg name data len off false).1 = true
    ∧ Mmap.read (Mmap.write reg name data len off false).2 name len off atF
        = (true, data, (Mmap.write reg name data len off false).2) := by
  have hmod : (off + len) % U64 = off + len := Nat.mod_eq_of_lt (lt_of_le_of_lt hfit hsz)
  have hng : ¬ off + len > info.size := not_lt.mpr hfit
  have htake : data.take len = data := by
    rw [← hdata]
    exact List.take_length data
  have hread : segRead (segWrite info.content off data) off data.length = data :=
    segRead_segWrite info.content data off (by rw [hlen]; omega)
  have hread2 : segRead (segWrite info.content off data) off len = data := by
    rw [← hdata]
    exact hread
  cases hA : info.attached with
  | true =>
    have hw : Mmap.write reg name data len off false
        = (true, alistSet reg name { info with content := segWrite info.content off data }) := by
      simp [Mmap.write, h, hmod, hng, hA, htake]
    have hfind : alistFind (alistSet reg name { info with content := segWrite info.content off data }) name
        = some { info with content := segWrite info.content off data } :=
      alistFind_alistSet_self _ _ _ (by rw [h]; rfl)
    rw [hw]
    refine ⟨rfl, ?_⟩
    rw [hA] at hfind
    simp [hA, Mmap.read, hfind, hmod, hng, hread2]
  | false =>
    have hw : Mmap.write reg name data len off false
        = (true, alistSet reg name { info with attached := true, content := segWrite info.content off data }) := by
      simp [Mmap.write, h, hmod, hng, hA, htake]
    have hfind : alistFind (alistSet reg name { info with attached := true, content := segWrite info.content off data }) name
        = some { info with attached := true, content := segWrite info.content off data } :=
      alistFind_alistSet_self _ _ _ (by rw [h]; rfl)
    rw [hw]
    refine ⟨rfl, ?_⟩
    simp [Mmap.read, hfind, hmod, hng, hread2]

/-- C8, witness: writing [1,2,3] at offset 2 of a fresh 8-byte segment
and reading 3 bytes back at offset 2 returns [1,2,3]. -/
theorem write_read_roundtrip_witness :
    (Mmap.write Ex.regRound "g" [1, 2, 3] 3 2 false).1 = true
    ∧ Mmap.read (Mmap.write Ex.regRound "g" [1, 2, 3] 3 2 false).2 "g" 3 2 false
        = (true, [1, 2, 3], (Mmap.write Ex.regRound "g" [1, 2, 3] 3 2 false).2) :=
  write_read_roundtrip Ex.regRound "g" [1, 2, 3] 3 2 false Ex.infoRound
    (by decide) (by decide) (by decide) (by decide) (by decide)

theorem getD_set_ne {α : Type} (l : List α) (j i : Nat) (a d : α) (hij : j ≠ i) :
    (l.set j a).getD i d = l.getD i d := by
  by_cases hi : i < l.length
  · have h2 : i < (l.set j a).length := by
      rw [List.length_set]
      exact hi
    rw [List.getD_eq_getElem _ _ h2, List.getD_eq_getElem _ _ hi]
    exact List.getElem_set_ne hij h2
  · have hi2 : l.length ≤ i := Nat.le_of_not_lt hi
    rw [List.getD_eq_default _ _ (by rw [List.length_set]; exact hi2),
      List.getD_eq_default _ _ hi2]

theorem Ops.scale_fold {α : Type} [Mul α] [Inhabited α] (arr : List α) (s : α)
    (res : List α) (hres : res.length = arr.length) :
    ∀ n, n ≤ arr.length →
      ((List.range n).foldl (Ops.scaleStep s) (arr, res)).1 = arr
      ∧ ((List.range n).foldl (Ops.scaleStep s) (arr, res)).2.length = arr.length
      ∧ (∀ i, i < n → ((List.range n).foldl (Ops.scaleStep s) (arr, res)).2.getD i default
          = arr.getD i default * s)
      ∧ (∀ i, n ≤ i → ((List.range n).foldl (Ops.scaleStep s) (arr, res)).2.getD i default
          = res.getD i default) := by
  intro n
  induction n with
  | zero =>
    intro _
    refine ⟨rfl, hres, ?_, ?_⟩
    · intro i hi
      omega
    · intro i _
      rfl
  | succ n ih =>
    intro hn
    obtain ⟨ih1, ih2, ih3, ih4⟩ := ih (Nat.le_of_succ_le hn)
    rw [List.range_succ, List.foldl_append, List.foldl_cons, List.foldl_nil]
    refine ⟨?_, ?_, ?_, ?_⟩
    · simp [Ops.scaleStep, ih1]
    · simp [Ops.scaleStep, List.length_set, ih2]
    · intro i hi
      simp only [Ops.scaleStep]
      by_cases hin : i = n
      · subst hin
        rw [getD_set_self _ _ _ _ (by rw [ih2]; omega), ih1]
      · have hi2 : i < n := by omega
        rw [getD_set_ne _ _ _ _ _ (by omega)]
        exact ih3 i hi2
    · intro i hni
      simp only [Ops.scaleStep]
      rw [getD_set_ne _ _ _ _ _ (by omega)]
      exact ih4 i (by omega)

/-- C10: `ScaleDoubleArray` leaves the input array unchanged and
produces a freshly allocated result of the same length whose element at
each index `i` equals `input[i] * scale`. -/
theorem scaleDoubleArray_correct {α : Type} [Mul α] [Inhabited α]
    (arr : List α) (s : α) :
    (Ops.ScaleDoubleArray arr s).1 = arr
    ∧ (Ops.ScaleDoubleArray arr s).2.length = arr.length
    ∧ ∀ i, i < arr.length →
        (Ops.ScaleDoubleArray arr s).2.getD i default = arr.getD i default * s := by
  unfold Ops.ScaleDoubleArray
  obtain ⟨h1, h2, h3, _⟩ := Ops.scale_fold arr s (List.replicate arr.length default)
    (List.length_replicate _ _) arr.length le_rfl
  exact ⟨h1, h2, h3⟩

/-- C10, witness: scaling [3, 4] by 2 over the integers gives 6 at
index 0. -/
theorem scaleDoubleArray_correct_witness :
    (Ops.ScaleDoubleArray ([3, 4] : List Int) 2).2.getD 0 default
      = ([3, 4] : List Int).getD 0 default * 2 :=
  (scaleDoubleArray_correct ([3, 4] : List Int) 2).2.2 0 (by decide)
